import Mathlib

/-!
Verification development for the osmapis repository (src/osmapis.py, src/osmt.py):
a shallow embedding of its versioned-primitive model (Node/Way/Relation wrappers
with shared mutable history), the OSM document container, the OSC diff engine,
the auto-changeset session logic of the API class, and the attribute codec.

Python dictionaries are embedded as association lists read through `dlookup`
(first binding wins, as in a dict that never stores a key twice).  Python object
identity and the shared mutable `history` attribute are embedded as an explicit
heap: instance attributes live in `Heap.insts : Nat → Inst`, and every history
dict is a separate heap cell `Heap.hists : Nat → HistDict` referenced by name
from the instances, so that the aliasing performed by
`OSMPrimitive.merge_history` (rebinding every contained instance's `history`
attribute to the freshly built dict) is represented faithfully.
-/

set_option linter.unusedVariables false

/-- Lookup in an association list: Python `dict.get` / `dict[...]`
(first binding for the key wins). -/
def dlookup {α : Type} {β : Type} [DecidableEq α] (k : α) : List (α × β) → Option β
  | [] => none
  | p :: t => if p.1 = k then some p.2 else dlookup k t

/-- Python `d[k] = v`: overwrite the binding in place if the key is present
(a Python dict keeps the key's original position), else append it. -/
def dinsert {α : Type} {β : Type} [DecidableEq α] (k : α) (v : β) : List (α × β) → List (α × β)
  | [] => [(k, v)]
  | p :: t => if p.1 = k then (k, v) :: t else p :: dinsert k v t

/-- Python `d = dict(base); d.update(upd)`: `base`'s keys keep their positions
(values overwritten from `upd` where present), then `upd`'s new keys follow. -/
def dUpdate {α : Type} {β : Type} [DecidableEq α] (base upd : List (α × β)) : List (α × β) :=
  base.map (fun p => (p.1, (dlookup p.1 upd).getD p.2)) ++
    upd.filter (fun p => (dlookup p.1 base).isNone)

/-- Python `max(xs)` on a list of keys: `none` models the `ValueError`
raised on an empty sequence. -/
def maxList : List Int → Option Int
  | [] => none
  | x :: t =>
    some (match maxList t with
          | none => x
          | some m => max x m)

/-- Python `max(d.keys())` for a dict embedded as an association list. -/
def keyMax {β : Type} (l : List (Int × β)) : Option Int :=
  maxList (l.map Prod.fst)

theorem dlookup_nil {α β : Type} [DecidableEq α] (k : α) :
    dlookup (β := β) k [] = none := rfl

theorem dlookup_cons {α β : Type} [DecidableEq α] (k : α) (p : α × β) (t : List (α × β)) :
    dlookup k (p :: t) = if p.1 = k then some p.2 else dlookup k t := rfl

theorem dlookup_append {α β : Type} [DecidableEq α] (k : α) (l1 l2 : List (α × β)) :
    dlookup k (l1 ++ l2) = (dlookup k l1).orElse (fun _ => dlookup k l2) := by
  induction l1 with
  | nil => simp [dlookup, Option.orElse]
  | cons p t ih =>
    by_cases h : p.1 = k <;> simp [dlookup, h, ih, Option.orElse]

theorem dlookup_map_key_dep {α β : Type} [DecidableEq α] (k : α)
    (f : α → β → β) (l : List (α × β)) :
    dlookup k (l.map (fun p => (p.1, f p.1 p.2))) = (dlookup k l).map (f k) := by
  induction l with
  | nil => simp [dlookup]
  | cons p t ih =>
    by_cases h : p.1 = k
    · subst h; simp [dlookup, ih]
    · simp [dlookup, h, ih]

theorem dlookup_filter_key {α β : Type} [DecidableEq α] (k : α)
    (q : α → Bool) (l : List (α × β)) :
    dlookup k (l.filter (fun p => q p.1)) = if q k then dlookup k l else none := by
  induction l with
  | nil => simp [dlookup]
  | cons p t ih =>
    by_cases h : p.1 = k
    · subst h
      by_cases hq : q p.1 <;> simp [dlookup, hq, ih]
    · by_cases hq : q p.1 <;> simp [dlookup, h, hq, ih]

/-- The content of a Python `dict(base)` followed by `update(upd)`: the updating
dict's entries win on key collision. -/
theorem dlookup_dUpdate {α β : Type} [DecidableEq α] (k : α) (base upd : List (α × β)) :
    dlookup k (dUpdate base upd) = (dlookup k upd).orElse (fun _ => dlookup k base) := by
  rw [dUpdate, dlookup_append, dlookup_map_key_dep k (fun a b => (dlookup a upd).getD b) base,
    dlookup_filter_key k (fun a => (dlookup a base).isNone) upd]
  cases hb : dlookup k base with
  | none =>
    cases hu : dlookup k upd with
    | none => simp [hu, Option.orElse]
    | some u => simp [hu, Option.orElse]
  | some v =>
    cases hu : dlookup k upd with
    | none => simp [hu, Option.orElse]
    | some u => simp [hu, Option.orElse]

theorem dlookup_eq_none_iff {α β : Type} [DecidableEq α] (k : α) (l : List (α × β)) :
    dlookup k l = none ↔ k ∉ l.map Prod.fst := by
  induction l with
  | nil => simp [dlookup]
  | cons p t ih =>
    by_cases h : p.1 = k
    · subst h; simp [dlookup]
    · simp [dlookup, h, ih, Ne.symm h]

theorem mem_values_of_dlookup {α β : Type} [DecidableEq α] {k : α} {v : β} {l : List (α × β)}
    (h : dlookup k l = some v) : v ∈ l.map Prod.snd := by
  induction l with
  | nil => simp [dlookup] at h
  | cons p t ih =>
    rw [dlookup_cons] at h
    by_cases hp : p.1 = k
    · rw [if_pos hp] at h
      simp [← Option.some.injEq p.2 v |>.mp h]
    · rw [if_neg hp] at h
      simp [ih h]

theorem mem_keys_of_dlookup {α β : Type} [DecidableEq α] {k : α} {v : β} {l : List (α × β)}
    (h : dlookup k l = some v) : k ∈ l.map Prod.fst := by
  by_contra hk
  rw [← dlookup_eq_none_iff (β := β)] at hk
  rw [h] at hk
  exact Option.noConfusion hk

theorem maxList_eq_none_iff (l : List Int) : maxList l = none ↔ l = [] := by
  cases l with
  | nil => simp [maxList]
  | cons x t => simp [maxList]

theorem maxList_mem {l : List Int} {m : Int} (h : maxList l = some m) : m ∈ l := by
  induction l generalizing m with
  | nil => simp [maxList] at h
  | cons x t ih =>
    rw [maxList] at h
    cases ht : maxList t with
    | none =>
      rw [ht] at h
      simp at h
      simp [h]
    | some m2 =>
      rw [ht] at h
      simp at h
      rcases max_choice x m2 with hc | hc <;> rw [hc] at h
      · simp [h]
      · simp [ih (h ▸ ht)]

theorem maxList_le {l : List Int} {m : Int} (h : maxList l = some m) :
    ∀ x ∈ l, x ≤ m := by
  induction l generalizing m with
  | nil => simp
  | cons x t ih =>
    rw [maxList] at h
    cases ht : maxList t with
    | none =>
      have ht2 : t = [] := (maxList_eq_none_iff t).mp ht
      subst ht2
      simp [maxList] at h
      intro y hy
      simp at hy
      omega
    | some m2 =>
      rw [ht] at h
      simp at h
      intro y hy
      rcases List.mem_cons.mp hy with hy | hy
      · rw [hy, ← h]; exact le_max_left x m2
      · calc y ≤ m2 := ih ht y hy
             _ ≤ m := by rw [← h]; exact le_max_right x m2

theorem keyMax_mem_keys {β : Type} {l : List (Int × β)} {m : Int} (h : keyMax l = some m) :
    m ∈ l.map Prod.fst := maxList_mem h

theorem keyMax_ge {β : Type} {l : List (Int × β)} {m : Int} (h : keyMax l = some m) :
    ∀ k ∈ l.map Prod.fst, k ≤ m := maxList_le h

theorem keyMax_isSome_of_mem {β : Type} {l : List (Int × β)} {k : Int}
    (h : k ∈ l.map Prod.fst) : ∃ m, keyMax l = some m := by
  cases l with
  | nil => simp at h
  | cons p t => exact ⟨_, rfl⟩

/-- Dicts with the same key set have the same maximal key. -/
theorem keyMax_congr {β γ : Type} {l1 : List (Int × β)} {l2 : List (Int × γ)}
    (h : ∀ k, k ∈ l1.map Prod.fst ↔ k ∈ l2.map Prod.fst) : keyMax l1 = keyMax l2 := by
  cases h1 : keyMax l1 with
  | none =>
    cases h2 : keyMax l2 with
    | none => rfl
    | some m2 =>
      have hm2 : m2 ∈ l1.map Prod.fst := (h m2).mpr (keyMax_mem_keys h2)
      obtain ⟨m1, hm1⟩ := keyMax_isSome_of_mem hm2
      rw [h1] at hm1; exact Option.noConfusion hm1
  | some m1 =>
    cases h2 : keyMax l2 with
    | none =>
      have hm1 : m1 ∈ l2.map Prod.fst := (h m1).mp (keyMax_mem_keys h1)
      obtain ⟨m2, hm2⟩ := keyMax_isSome_of_mem hm1
      rw [h2] at hm2; exact Option.noConfusion hm2
    | some m2 =>
      have le1 : m1 ≤ m2 := keyMax_ge h2 m1 ((h m1).mp (keyMax_mem_keys h1))
      have le2 : m2 ≤ m1 := keyMax_ge h1 m2 ((h m2).mpr (keyMax_mem_keys h2))
      rw [le_antisymm le1 le2]

/-! ## Data model: Node / Way / Relation wrappers (src/osmapis.py 1796-2096) -/

/-- The three versioned primitive classes.  `merge_history` compares
`self.__class__.__name__`, which for the stock wrappers is exactly this kind. -/
inductive Kind
  | node
  | way
  | relation
  deriving DecidableEq, Repr

/-- A relation member as produced by `Relation.parse_members` via `parse_attribs`:
`type` and `role` stay strings, `ref` is typed to int.  Python compares member
dicts by content; record equality coincides. -/
structure Member where
  mtype : String
  ref : Int
  role : String
  deriving DecidableEq, Repr

/-- The reserved, typed attributes of a wrapper's `attribs` dict that the
embedded operations read or write (`id`, `version`, `lat`, `lon`, `changeset`,
`visible`).  Other attribute keys are opaque payload that none of the modelled
operations inspect.  Python floats under `lat`/`lon` are embedded as rationals:
the code never does arithmetic on them, only equality tests. -/
structure Attribs where
  id : Option Int
  version : Option Int
  lat : Option ℚ
  lon : Option ℚ
  changeset : Option Int
  visible : Option Bool
  deriving DecidableEq, Repr

/-- Kind-specific payload: `Way.nds` is the ordered node-id list,
`Relation.members` the ordered member list; a node has none
(its `lat`/`lon` live in `attribs`). -/
inductive Payload
  | node
  | way (nds : List Int)
  | relation (members : List Member)
  deriving DecidableEq, Repr

def Payload.kind : Payload → Kind
  | .node => .node
  | .way _ => .way
  | .relation _ => .relation

/-- One wrapper instance: its attributes, its `tags` dict, its payload, and the
heap name of the history dict its `history` attribute currently points to. -/
structure Inst where
  attribs : Attribs
  tags : List (String × String)
  payload : Payload
  hist : Nat
  deriving Repr

def kindOf (i : Inst) : Kind := i.payload.kind

/-- A history dict: version number ↦ instance reference, as built by
`OSMPrimitive.__init__` and `merge_history`. -/
abbrev HistDict := List (Int × Nat)

/-- The object heap.  `insts` gives every instance reference its current
attribute record; `hists` gives every history-dict name its current content;
history dicts created by `merge_history` get the fresh names
`freshHist`, `freshHist + 1`, …  (Instance references never dangle in Python,
so both maps are total.) -/
structure Heap where
  insts : Nat → Inst
  hists : Nat → HistDict
  freshHist : Nat

/-- Python dict equality (`==`): the two dicts agree on every key of either. -/
def dictBeq (t1 t2 : List (String × String)) : Bool :=
  (t1.map Prod.fst ++ t2.map Prod.fst).all (fun k =>
    dlookup k t1 == dlookup k t2)

/-- Structural equality of wrappers: `Node.__eq__` (id, version, tags, lat, lon),
`Way.__eq__` (id, version, tags, nds), `Relation.__eq__` (id, version, tags,
members) (src/osmapis.py 1896-1899, 1972-1975, 2066-2069).  On mismatched
classes every `__eq__` returns `NotImplemented`, so Python falls back to
identity, which is false for two objects of different classes. -/
def primEq (x y : Inst) : Bool :=
  match x.payload, y.payload with
  | .node, .node =>
    x.attribs.id == y.attribs.id && x.attribs.version == y.attribs.version &&
      dictBeq x.tags y.tags && x.attribs.lat == y.attribs.lat &&
      x.attribs.lon == y.attribs.lon
  | .way nx, .way ny =>
    x.attribs.id == y.attribs.id && x.attribs.version == y.attribs.version &&
      dictBeq x.tags y.tags && nx == ny
  | .relation mx, .relation my =>
    x.attribs.id == y.attribs.id && x.attribs.version == y.attribs.version &&
      dictBeq x.tags y.tags && mx == my
  | _, _ => false

/-- Error values for `merge_history`'s `ValueError`s: the first two `raise`
sites (class mismatch, id mismatch) are the spec's `IdentityMismatch`, the
third (a `None` version) its `MissingVersion`; `internalError` stands for the
`ValueError`/`KeyError` that `max()`/`[...]` would raise on an empty history,
which is unreachable from states the constructors produce. -/
inductive MergeErr
  | identityMismatch
  | missingVersion
  | internalError
  deriving DecidableEq, Repr

/-- The body of `OSMPrimitive.merge_history` after its precondition checks
(src/osmapis.py 1827-1832):

    history = dict(other.history)
    history.update(self.history)
    for element in history.values():
        element.history = history
    max_id = max(self.history.keys())
    return self.history[max_id]

The new dict gets the fresh heap name `σ.freshHist`; the loop rebinds the
`history` attribute of every instance occurring among the new dict's values;
the final two lines read `self.history` again, i.e. through the instance heap
as updated by the loop. -/
def mergedDict (σ : Heap) (a b : Nat) : HistDict :=
  dUpdate (σ.hists ((σ.insts b).hist)) (σ.hists ((σ.insts a).hist))

/-- The heap after the first three statements of the body: the new dict
`mergedDict σ a b` is stored at the fresh name, and every instance among its
values has its `history` attribute rebound to that name. -/
def mergeState (σ : Heap) (a b : Nat) : Heap :=
  { insts := fun r =>
      if r ∈ (mergedDict σ a b).map Prod.snd then
        { σ.insts r with hist := σ.freshHist }
      else σ.insts r
    hists := fun n => if n = σ.freshHist then mergedDict σ a b else σ.hists n
    freshHist := σ.freshHist + 1 }

def mergeCore (σ : Heap) (a b : Nat) : Except MergeErr Nat × Heap :=
  match keyMax ((mergeState σ a b).hists (((mergeState σ a b).insts a).hist)) with
  | none => (.error .internalError, mergeState σ a b)
  | some m =>
    match dlookup m ((mergeState σ a b).hists (((mergeState σ a b).insts a).hist)) with
    | none => (.error .internalError, mergeState σ a b)
    | some r => (.ok r, mergeState σ a b)

/-- Model of `OSMPrimitive.merge_history(self, other)` (src/osmapis.py 1820-1832,
identical in src/osmt.py 1872-1884) with `self = a`, `other = b`.  The three
guard `raise`s happen before any mutation, so they return the heap unchanged. -/
def mergeHistory (σ : Heap) (a b : Nat) : Except MergeErr Nat × Heap :=
  if kindOf (σ.insts a) ≠ kindOf (σ.insts b) then (.error .identityMismatch, σ)
  else if (σ.insts a).attribs.id ≠ (σ.insts b).attribs.id then (.error .identityMismatch, σ)
  else if (σ.insts a).attribs.version = none ∨ (σ.insts b).attribs.version = none then
    (.error .missingVersion, σ)
  else mergeCore σ a b

/-- The state invariant `OSMPrimitive.__init__` establishes and every modelled
operation preserves: an instance's history-dict name is a cell already handed
out by the heap, and a versioned instance is registered in its own history
under its own version (`self.history[self.version] = self`). -/
def wfInst (σ : Heap) (r : Nat) : Prop :=
  (σ.insts r).hist < σ.freshHist ∧
    (match (σ.insts r).attribs.version with
     | none => True
     | some v => dlookup v (σ.hists (σ.insts r).hist) = some r)

/-! ## Lemmas about `merge_history` -/

theorem mergeState_insts_same (σ : Heap) (a b r : Nat) :
    ((mergeState σ a b).insts r).attribs = (σ.insts r).attribs ∧
    ((mergeState σ a b).insts r).payload = (σ.insts r).payload ∧
    ((mergeState σ a b).insts r).tags = (σ.insts r).tags := by
  unfold mergeState
  by_cases h : r ∈ (mergedDict σ a b).map Prod.snd <;> simp [h]

theorem mergeState_hist_of_mem {σ : Heap} {a b : Nat} {v : Int} {r : Nat}
    (h : dlookup v (mergedDict σ a b) = some r) :
    ((mergeState σ a b).insts r).hist = σ.freshHist := by
  unfold mergeState
  simp [mem_values_of_dlookup h]

theorem mergeState_insts_not_mem {σ : Heap} {a b r : Nat}
    (h : r ∉ (mergedDict σ a b).map Prod.snd) :
    (mergeState σ a b).insts r = σ.insts r := by
  unfold mergeState
  simp [h]

theorem mergeState_hists_fresh (σ : Heap) (a b : Nat) :
    (mergeState σ a b).hists σ.freshHist = mergedDict σ a b := by
  unfold mergeState
  simp

theorem mergeState_hists_old {σ : Heap} (a b : Nat) {n : Nat} (h : n ≠ σ.freshHist) :
    (mergeState σ a b).hists n = σ.hists n := by
  unfold mergeState
  simp [h]

/-- After the rebinding loop, `self.history` is the merged dict, provided `self`
occurs among the merged dict's values. -/
theorem mergeState_self_hist {σ : Heap} {a b : Nat} {v : Int}
    (h : dlookup v (mergedDict σ a b) = some a) :
    (mergeState σ a b).hists (((mergeState σ a b).insts a).hist) = mergedDict σ a b := by
  rw [mergeState_hist_of_mem h, mergeState_hists_fresh]

/-- Content of the merged dict: `self`'s entries win on a version collision. -/
theorem dlookup_mergedDict (σ : Heap) (a b : Nat) (v : Int) :
    dlookup v (mergedDict σ a b) =
      (dlookup v (σ.hists ((σ.insts a).hist))).orElse
        (fun _ => dlookup v (σ.hists ((σ.insts b).hist))) :=
  dlookup_dUpdate v _ _

theorem keys_iff_of_dlookup_eq {α β γ : Type} [DecidableEq α]
    {l1 : List (α × β)} {l2 : List (α × γ)}
    (h : ∀ v, (dlookup v l1).isSome = (dlookup v l2).isSome) (k : α) :
    k ∈ l1.map Prod.fst ↔ k ∈ l2.map Prod.fst := by
  have h2 := h k
  rw [← not_iff_not, ← dlookup_eq_none_iff, ← dlookup_eq_none_iff]
  cases hc1 : dlookup k l1 <;> cases hc2 : dlookup k l2 <;>
    rw [hc1, hc2] at h2 <;> simp_all

theorem mergeCore_ok {σ : Heap} {a b : Nat} {v : Int}
    (h : dlookup v (mergedDict σ a b) = some a) :
    ∃ m r, keyMax (mergedDict σ a b) = some m ∧
      dlookup m (mergedDict σ a b) = some r ∧
      mergeCore σ a b = (.ok r, mergeState σ a b) := by
  have hself := mergeState_self_hist h
  obtain ⟨m, hm⟩ := keyMax_isSome_of_mem (mem_keys_of_dlookup h)
  have hmk : m ∈ (mergedDict σ a b).map Prod.fst := keyMax_mem_keys hm
  have hne : dlookup m (mergedDict σ a b) ≠ none := by
    intro hcon
    rw [dlookup_eq_none_iff] at hcon
    exact hcon hmk
  obtain ⟨r, hr⟩ := Option.ne_none_iff_exists.mp hne
  refine ⟨m, r, hm, hr.symm, ?_⟩
  unfold mergeCore
  rw [hself, hm]
  show (match dlookup m (mergedDict σ a b) with
        | none => (Except.error MergeErr.internalError, mergeState σ a b)
        | some r => (Except.ok r, mergeState σ a b)) = (Except.ok r, mergeState σ a b)
  rw [← hr]

theorem mergeHistory_eq_core {σ : Heap} {a b : Nat}
    (hk : kindOf (σ.insts a) = kindOf (σ.insts b))
    (hid : (σ.insts a).attribs.id = (σ.insts b).attribs.id)
    (hvs : ¬((σ.insts a).attribs.version = none ∨ (σ.insts b).attribs.version = none)) :
    mergeHistory σ a b = mergeCore σ a b := by
  unfold mergeHistory
  rw [if_neg (by simp [hk]), if_neg (by simp [hid]), if_neg hvs]

theorem wfInst_registered {σ : Heap} {r : Nat} {v : Int} (hw : wfInst σ r)
    (hv : (σ.insts r).attribs.version = some v) :
    dlookup v (σ.hists ((σ.insts r).hist)) = some r := by
  have h2 := hw.2
  rw [hv] at h2
  exact h2

theorem orElse_absorb (x y : Option Nat) :
    ((x.orElse fun _ => y).orElse fun _ => y) = x.orElse fun _ => y := by
  cases x <;> cases y <;> simp [Option.orElse]

theorem orElse_self (x : Option Nat) : (x.orElse fun _ => x) = x := by
  cases x <;> simp [Option.orElse]

theorem mergeHistory_kind_err {σ : Heap} {a b : Nat}
    (h : kindOf (σ.insts a) ≠ kindOf (σ.insts b)) :
    mergeHistory σ a b = (.error .identityMismatch, σ) := by
  unfold mergeHistory
  rw [if_pos h]

theorem mergeHistory_id_err {σ : Heap} {a b : Nat}
    (hk : kindOf (σ.insts a) = kindOf (σ.insts b))
    (h : (σ.insts a).attribs.id ≠ (σ.insts b).attribs.id) :
    mergeHistory σ a b = (.error .identityMismatch, σ) := by
  unfold mergeHistory
  rw [if_neg (by simp [hk]), if_pos h]

theorem mergeHistory_version_err {σ : Heap} {a b : Nat}
    (hk : kindOf (σ.insts a) = kindOf (σ.insts b))
    (hid : (σ.insts a).attribs.id = (σ.insts b).attribs.id)
    (h : (σ.insts a).attribs.version = none ∨ (σ.insts b).attribs.version = none) :
    mergeHistory σ a b = (.error .missingVersion, σ) := by
  unfold mergeHistory
  rw [if_neg (by simp [hk]), if_neg (by simp [hid]), if_pos h]

/-- Successful runs of `merge_history`, from the reachable-state invariant. -/
theorem mergeHistory_ok {σ : Heap} {a b : Nat} {va : Int}
    (hk : kindOf (σ.insts a) = kindOf (σ.insts b))
    (hid : (σ.insts a).attribs.id = (σ.insts b).attribs.id)
    (hva : (σ.insts a).attribs.version = some va)
    (hvb : (σ.insts b).attribs.version ≠ none)
    (hreg : dlookup va (σ.hists ((σ.insts a).hist)) = some a) :
    ∃ m r, keyMax (mergedDict σ a b) = some m ∧
      dlookup m (mergedDict σ a b) = some r ∧
      mergeHistory σ a b = (.ok r, mergeState σ a b) := by
  have hmem : dlookup va (mergedDict σ a b) = some a := by
    rw [dlookup_mergedDict, hreg]
    rfl
  obtain ⟨m, r, hm, hr, hcore⟩ := mergeCore_ok hmem
  refine ⟨m, r, hm, hr, ?_⟩
  rw [mergeHistory_eq_core hk hid (by simp [hva, hvb]), hcore]

/-- C5: `merge_history` fails exactly when a precondition is violated — a class
mismatch or an id mismatch raises the identity-mismatch `ValueError`, a missing
version number raises the missing-version `ValueError` (in that check order),
each before any state is touched; with equal kinds, equal ids and non-null
versions (and `self` registered in its own history, as every constructed
instance is) the call returns normally. -/
theorem merge_history_error_iff (σ : Heap) (a b : Nat)
    (hwa : wfInst σ a) :
    ((∃ r σ1, mergeHistory σ a b = (.ok r, σ1)) ↔
      (kindOf (σ.insts a) = kindOf (σ.insts b) ∧
       (σ.insts a).attribs.id = (σ.insts b).attribs.id ∧
       (σ.insts a).attribs.version ≠ none ∧
       (σ.insts b).attribs.version ≠ none)) ∧
    (kindOf (σ.insts a) ≠ kindOf (σ.insts b) →
      mergeHistory σ a b = (.error .identityMismatch, σ)) ∧
    (kindOf (σ.insts a) = kindOf (σ.insts b) →
      (σ.insts a).attribs.id ≠ (σ.insts b).attribs.id →
      mergeHistory σ a b = (.error .identityMismatch, σ)) ∧
    (kindOf (σ.insts a) = kindOf (σ.insts b) →
      (σ.insts a).attribs.id = (σ.insts b).attribs.id →
      ((σ.insts a).attribs.version = none ∨ (σ.insts b).attribs.version = none) →
      mergeHistory σ a b = (.error .missingVersion, σ)) := by
  refine ⟨⟨?_, ?_⟩, fun h => mergeHistory_kind_err h,
    fun hk h => mergeHistory_id_err hk h,
    fun hk hid h => mergeHistory_version_err hk hid h⟩
  · rintro ⟨r, σ1, hok⟩
    by_cases hk : kindOf (σ.insts a) = kindOf (σ.insts b)
    · by_cases hid : (σ.insts a).attribs.id = (σ.insts b).attribs.id
      · by_cases hv : (σ.insts a).attribs.version = none ∨ (σ.insts b).attribs.version = none
        · rw [mergeHistory_version_err hk hid hv] at hok
          exact absurd (congrArg Prod.fst hok) (by simp)
        · push_neg at hv
          exact ⟨hk, hid, hv.1, hv.2⟩
      · rw [mergeHistory_id_err hk hid] at hok
        exact absurd (congrArg Prod.fst hok) (by simp)
    · rw [mergeHistory_kind_err hk] at hok
      exact absurd (congrArg Prod.fst hok) (by simp)
  · rintro ⟨hk, hid, hva, hvb⟩
    obtain ⟨va, hva2⟩ := Option.ne_none_iff_exists.mp hva
    obtain ⟨m, r, _, _, hrun⟩ :=
      mergeHistory_ok hk hid hva2.symm hvb (wfInst_registered hwa hva2.symm)
    exact ⟨r, mergeState σ a b, hrun⟩

/-- C6: for two versioned instances of the same identity in a reachable state,
`merge_history` returns the instance stored at the highest version of the
unified history (whose content is the union of both histories, `self`'s entries
winning on a version collision), and merging again with the same argument is
idempotent — the same representative comes back and the resulting history map
has exactly the same version ↦ instance content. -/
theorem merge_history_highest_and_idempotent (σ : Heap) (a b : Nat) (va vb : Int)
    (hwa : wfInst σ a) (hwb : wfInst σ b)
    (hk : kindOf (σ.insts a) = kindOf (σ.insts b))
    (hid : (σ.insts a).attribs.id = (σ.insts b).attribs.id)
    (hva : (σ.insts a).attribs.version = some va)
    (hvb : (σ.insts b).attribs.version = some vb) :
    ∃ r m σ1,
      mergeHistory σ a b = (.ok r, σ1) ∧
      (∀ v, dlookup v (σ1.hists ((σ1.insts a).hist)) =
        (dlookup v (σ.hists ((σ.insts a).hist))).orElse
          (fun _ => dlookup v (σ.hists ((σ.insts b).hist)))) ∧
      keyMax (σ1.hists ((σ1.insts a).hist)) = some m ∧
      dlookup m (σ1.hists ((σ1.insts a).hist)) = some r ∧
      (∀ k ∈ (σ1.hists ((σ1.insts a).hist)).map Prod.fst, k ≤ m) ∧
      (∃ σ2, mergeHistory σ1 a b = (.ok r, σ2) ∧
        ∀ v, dlookup v (σ2.hists ((σ2.insts a).hist)) =
          dlookup v (σ1.hists ((σ1.insts a).hist))) := by
  have hrega : dlookup va (σ.hists ((σ.insts a).hist)) = some a :=
    wfInst_registered hwa hva
  have hmemA : dlookup va (mergedDict σ a b) = some a := by
    rw [dlookup_mergedDict, hrega]
    rfl
  obtain ⟨m, r, hm, hr, hrun⟩ :=
    mergeHistory_ok hk hid hva (by simp [hvb]) hrega
  have hself1 : (mergeState σ a b).hists (((mergeState σ a b).insts a).hist) =
      mergedDict σ a b := mergeState_self_hist hmemA
  -- content of the merged dict built by a second call on the post-state
  have hsame := fun r => mergeState_insts_same σ a b r
  have hbhist : (mergeState σ a b).hists (((mergeState σ a b).insts b).hist) =
      mergedDict σ a b ∨
      (mergeState σ a b).hists (((mergeState σ a b).insts b).hist) =
      σ.hists ((σ.insts b).hist) := by
    by_cases hb : b ∈ (mergedDict σ a b).map Prod.snd
    · left
      have : ((mergeState σ a b).insts b).hist = σ.freshHist := by
        unfold mergeState
        simp [hb]
      rw [this, mergeState_hists_fresh]
    · right
      rw [mergeState_insts_not_mem hb,
        mergeState_hists_old a b (Nat.ne_of_lt hwb.1)]
  have hcontent2 : ∀ v, dlookup v (mergedDict (mergeState σ a b) a b) =
      dlookup v (mergedDict σ a b) := by
    intro v
    rw [dlookup_mergedDict, hself1]
    rcases hbhist with hb | hb <;> rw [hb]
    · exact orElse_self _
    · rw [dlookup_mergedDict σ a b v]
      exact orElse_absorb _ _
  have hmemA2 : dlookup va (mergedDict (mergeState σ a b) a b) = some a := by
    rw [hcontent2, hmemA]
  have hsame2 : ∀ v : Int, (dlookup v (mergedDict (mergeState σ a b) a b)).isSome =
      (dlookup v (mergedDict σ a b)).isSome := fun v => by rw [hcontent2]
  have hkeys2 := keys_iff_of_dlookup_eq hsame2
  obtain ⟨m2, r2, hm2, hr2, hrun2⟩ :=
    mergeHistory_ok (a := a) (b := b) (σ := mergeState σ a b)
      (by rw [kindOf, kindOf, (hsame a).2.1, (hsame b).2.1]; exact hk)
      (by rw [(hsame a).1, (hsame b).1]; exact hid)
      (by rw [(hsame a).1]; exact hva)
      (by rw [(hsame b).1]; simp [hvb])
      (by rw [hself1]; exact hmemA)
  have hmeq : m2 = m := by
    have := keyMax_congr hkeys2
    rw [hm2] at this
    rw [hm] at this
    exact Option.some.injEq m2 m |>.mp this
  have hreq : r2 = r := by
    rw [hmeq, hcontent2, hr] at hr2
    simp at hr2
    exact hr2.symm
  refine ⟨r, m, mergeState σ a b, hrun, ?_, ?_, ?_, ?_, ?_⟩
  · intro v
    rw [hself1, dlookup_mergedDict]
  · rw [hself1, hm]
  · rw [hself1, hr]
  · rw [hself1]
    exact keyMax_ge hm
  · refine ⟨mergeState (mergeState σ a b) a b, by rw [hrun2, hreq], ?_⟩
    intro v
    rw [mergeState_self_hist hmemA2, hcontent2, hself1]

/-! ## A concrete two-instance heap (two Node wrappers sharing id 1) -/

/-- A Node wrapper with id 1, version 2, whose history dict is heap cell 0. -/
def exNodeV2 : Inst :=
  { attribs := { id := some 1, version := some 2, lat := none, lon := none,
                 changeset := none, visible := none }
    tags := []
    payload := .node
    hist := 0 }

/-- A Node wrapper with id 1, version 1, whose history dict is heap cell 1. -/
def exNodeV1 : Inst :=
  { attribs := { id := some 1, version := some 1, lat := none, lon := none,
                 changeset := none, visible := none }
    tags := []
    payload := .node
    hist := 1 }

/-- Heap holding the two nodes (reference 0 ↦ version 2, reference 1 ↦
version 1), each freshly constructed: `history = {version: self}`. -/
def exHeap : Heap :=
  { insts := fun r => if r = 0 then exNodeV2 else exNodeV1
    hists := fun n => if n = 0 then [(2, 0)] else if n = 1 then [(1, 1)] else []
    freshHist := 2 }

/-- Witness for the `merge_history` error contract at a concrete input. -/
theorem merge_history_error_iff_witness :
    wfInst exHeap 0 ∧
    (((∃ r σ1, mergeHistory exHeap 0 1 = (.ok r, σ1)) ↔
      (kindOf (exHeap.insts 0) = kindOf (exHeap.insts 1) ∧
       (exHeap.insts 0).attribs.id = (exHeap.insts 1).attribs.id ∧
       (exHeap.insts 0).attribs.version ≠ none ∧
       (exHeap.insts 1).attribs.version ≠ none)) ∧
     (kindOf (exHeap.insts 0) ≠ kindOf (exHeap.insts 1) →
       mergeHistory exHeap 0 1 = (.error .identityMismatch, exHeap)) ∧
     (kindOf (exHeap.insts 0) = kindOf (exHeap.insts 1) →
       (exHeap.insts 0).attribs.id ≠ (exHeap.insts 1).attribs.id →
       mergeHistory exHeap 0 1 = (.error .identityMismatch, exHeap)) ∧
     (kindOf (exHeap.insts 0) = kindOf (exHeap.insts 1) →
       (exHeap.insts 0).attribs.id = (exHeap.insts 1).attribs.id →
       ((exHeap.insts 0).attribs.version = none ∨
        (exHeap.insts 1).attribs.version = none) →
       mergeHistory exHeap 0 1 = (.error .missingVersion, exHeap))) :=
  ⟨⟨by decide, by rfl⟩, merge_history_error_iff exHeap 0 1 ⟨by decide, by rfl⟩⟩

/-- Witness for the merge representative / idempotence theorem at a concrete
input. -/
theorem merge_history_highest_and_idempotent_witness :
    (wfInst exHeap 0 ∧ wfInst exHeap 1 ∧
     kindOf (exHeap.insts 0) = kindOf (exHeap.insts 1) ∧
     (exHeap.insts 0).attribs.id = (exHeap.insts 1).attribs.id ∧
     (exHeap.insts 0).attribs.version = some 2 ∧
     (exHeap.insts 1).attribs.version = some 1) ∧
    (∃ r m σ1,
      mergeHistory exHeap 0 1 = (.ok r, σ1) ∧
      (∀ v, dlookup v (σ1.hists ((σ1.insts 0).hist)) =
        (dlookup v (exHeap.hists ((exHeap.insts 0).hist))).orElse
          (fun _ => dlookup v (exHeap.hists ((exHeap.insts 1).hist)))) ∧
      keyMax (σ1.hists ((σ1.insts 0).hist)) = some m ∧
      dlookup m (σ1.hists ((σ1.insts 0).hist)) = some r ∧
      (∀ k ∈ (σ1.hists ((σ1.insts 0).hist)).map Prod.fst, k ≤ m) ∧
      (∃ σ2, mergeHistory σ1 0 1 = (.ok r, σ2) ∧
        ∀ v, dlookup v (σ2.hists ((σ2.insts 0).hist)) =
          dlookup v (σ1.hists ((σ1.insts 0).hist)))) :=
  ⟨⟨⟨by decide, by rfl⟩, ⟨by decide, by rfl⟩, rfl, rfl, rfl, rfl⟩,
    merge_history_highest_and_idempotent exHeap 0 1 2 1
      ⟨by decide, by rfl⟩ ⟨by decide, by rfl⟩ rfl rfl rfl rfl⟩

/-! ## The OSM document container (src/osmapis.py 2129-2246) -/

/-- The `OSM` document: its three containers `nodes`, `ways`, `relations`, id ↦ instance
reference.  (Python dict keys may be `None` before auto-assignment, hence
`Option Int` keys.) -/
structure OSMDoc where
  nodes : List (Option Int × Nat)
  ways : List (Option Int × Nat)
  relations : List (Option Int × Nat)

def OSMDoc.byKind (doc : OSMDoc) : Kind → List (Option Int × Nat)
  | .node => doc.nodes
  | .way => doc.ways
  | .relation => doc.relations

/-- Model of `OSM.add` (src/osmapis.py 2191-2196; identical in src/osmt.py 2225-2230):
dispatch on the item's class and execute `container[item.id] = item` — an
unconditional store; no call to `merge_history` anywhere in the method.  (The
`ValueError` branch for non-primitive arguments is unrepresentable here since
`Inst` covers exactly the three primitive classes.) -/
def OSM.add (σ : Heap) (doc : OSMDoc) (r : Nat) : OSMDoc :=
  match kindOf (σ.insts r) with
  | .node => { doc with nodes := dinsert (σ.insts r).attribs.id r doc.nodes }
  | .way => { doc with ways := dinsert (σ.insts r).attribs.id r doc.ways }
  | .relation => { doc with relations := dinsert (σ.insts r).attribs.id r doc.relations }

/-- Model of `OSM.__contains__` (src/osmapis.py 2183-2189): dispatch on the item's class
and return `container.get(item.id) == item`; `None == item` is `False`. -/
def OSM.contains (σ : Heap) (doc : OSMDoc) (r : Nat) : Bool :=
  match dlookup (σ.insts r).attribs.id (doc.byKind (kindOf (σ.insts r))) with
  | none => false
  | some s => primEq (σ.insts s) (σ.insts r)

theorem dlookup_dinsert {α β : Type} [DecidableEq α] (k key : α) (v : β)
    (l : List (α × β)) :
    dlookup k (dinsert key v l) = if key = k then some v else dlookup k l := by
  induction l with
  | nil => simp [dinsert, dlookup]
  | cons p t ih =>
    by_cases hp : p.1 = key
    · subst hp
      by_cases hk : p.1 = k <;> simp [dinsert, dlookup, hk, ih]
    · by_cases hk : p.1 = k
      · have hne : k ≠ key := fun hcon => hp (by rw [hk, hcon])
        simp [dinsert, dlookup, hp, hk, hne, Ne.symm hne]
      · simp [dinsert, dlookup, hp, hk, ih]

/-! ## The OSC diff engine (src/osmapis.py 2272-2304) -/

/-- The ids examined for one kind: `set(child_elements.keys()) |
set(parent_elements.keys())`, each id once; the iteration order of a Python
set is arbitrary, and the partition theorem below shows the resulting sets
depend only on the documents' contents. -/
def diffIds (C P : List (Option Int × Nat)) : List (Option Int) :=
  (C.map Prod.fst ++ P.map Prod.fst).dedup

/-- The loop body of `OSC.from_diff` for one id: an id absent from the child
puts the parent's instance into `delete`; an id absent from the parent puts the
child's instance into `create`; an id in both with `parent[id] != child[id]`
(structural inequality) puts the child's instance into `modify`; equal
instances contribute nothing.  The accumulator is the triple of Python sets
`(create, modify, delete)`; the sets hold instances, i.e. references. -/
def diffStep (σ : Heap) (P C : List (Option Int × Nat))
    (acc : Finset Nat × Finset Nat × Finset Nat) (i : Option Int) :
    Finset Nat × Finset Nat × Finset Nat :=
  match dlookup i C, dlookup i P with
  | none, some p => (acc.1, acc.2.1, insert p acc.2.2)
  | some c, none => (insert c acc.1, acc.2.1, acc.2.2)
  | some c, some p =>
    if primEq (σ.insts p) (σ.insts c) then acc
    else (acc.1, insert c acc.2.1, acc.2.2)
  | none, none => acc

/-- Model of `OSC.from_diff` (src/osmapis.py 2272-2304; same algorithm in src/osmt.py
2271-2296): the loop `for type_ in ("node", "way", "relation")`, unrolled,
accumulating the three sets.  The function only reads the two documents and
the heap — its type shows that neither input is modified (purity). -/
def OSC.fromDiffSets (σ : Heap) (parent child : OSMDoc) :
    Finset Nat × Finset Nat × Finset Nat :=
  (diffIds child.relations parent.relations).foldl
    (diffStep σ parent.relations child.relations)
    ((diffIds child.ways parent.ways).foldl
      (diffStep σ parent.ways child.ways)
      ((diffIds child.nodes parent.nodes).foldl
        (diffStep σ parent.nodes child.nodes) (∅, ∅, ∅)))

/-- The tail of `OSC.from_diff`: only non-empty sets become sections, in the
fixed order create, modify, delete. -/
def OSC.fromDiffSections (σ : Heap) (parent child : OSMDoc) :
    List (String × Finset Nat) :=
  (if (OSC.fromDiffSets σ parent child).1 ≠ ∅ then
    [("create", (OSC.fromDiffSets σ parent child).1)] else []) ++
  (if (OSC.fromDiffSets σ parent child).2.1 ≠ ∅ then
    [("modify", (OSC.fromDiffSets σ parent child).2.1)] else []) ++
  (if (OSC.fromDiffSets σ parent child).2.2 ≠ ∅ then
    [("delete", (OSC.fromDiffSets σ parent child).2.2)] else [])

theorem diffStep_mem_create (σ : Heap) (P C : List (Option Int × Nat))
    (acc : Finset Nat × Finset Nat × Finset Nat) (i : Option Int) (r : Nat) :
    r ∈ (diffStep σ P C acc i).1 ↔
      r ∈ acc.1 ∨ (dlookup i C = some r ∧ dlookup i P = none) := by
  unfold diffStep
  cases hc : dlookup i C with
  | none => cases hp : dlookup i P <;> simp
  | some c =>
    cases hp : dlookup i P with
    | none =>
      simp only [Finset.mem_insert, Option.some.injEq]
      constructor
      · rintro (h | h)
        · exact Or.inr ⟨h.symm, trivial⟩
        · exact Or.inl h
      · rintro (h | ⟨h, -⟩)
        · exact Or.inr h
        · exact Or.inl h.symm
    | some p =>
      by_cases hpe : primEq (σ.insts p) (σ.insts c) = true <;> simp [hpe]

theorem diffStep_mem_modify (σ : Heap) (P C : List (Option Int × Nat))
    (acc : Finset Nat × Finset Nat × Finset Nat) (i : Option Int) (r : Nat) :
    r ∈ (diffStep σ P C acc i).2.1 ↔
      r ∈ acc.2.1 ∨ (∃ p, dlookup i P = some p ∧ dlookup i C = some r ∧
        primEq (σ.insts p) (σ.insts r) = false) := by
  unfold diffStep
  cases hc : dlookup i C with
  | none => cases hp : dlookup i P <;> simp
  | some c =>
    cases hp : dlookup i P with
    | none => simp
    | some p =>
      show r ∈ (if primEq (σ.insts p) (σ.insts c) = true then acc
          else (acc.1, insert c acc.2.1, acc.2.2)).2.1 ↔
        r ∈ acc.2.1 ∨ ∃ p2, some p = some p2 ∧ some c = some r ∧
          primEq (σ.insts p2) (σ.insts r) = false
      by_cases hpe : primEq (σ.insts p) (σ.insts c) = true
      · rw [if_pos hpe]
        constructor
        · exact Or.inl
        · rintro (h | ⟨p2, hp2, hcr, hfalse⟩)
          · exact h
          · obtain rfl : p = p2 := by injection hp2
            obtain rfl : c = r := by injection hcr
            rw [hpe] at hfalse
            exact absurd hfalse (by simp)
      · rw [if_neg hpe]
        simp only [Finset.mem_insert, Option.some.injEq]
        constructor
        · rintro (h | h)
          · exact Or.inr ⟨p, rfl, h.symm, by rw [h]; simpa using hpe⟩
          · exact Or.inl h
        · rintro (h | ⟨p2, hp2, hcr, -⟩)
          · exact Or.inr h
          · exact Or.inl hcr.symm

theorem diffStep_mem_delete (σ : Heap) (P C : List (Option Int × Nat))
    (acc : Finset Nat × Finset Nat × Finset Nat) (i : Option Int) (r : Nat) :
    r ∈ (diffStep σ P C acc i).2.2 ↔
      r ∈ acc.2.2 ∨ (dlookup i P = some r ∧ dlookup i C = none) := by
  unfold diffStep
  cases hc : dlookup i C with
  | none =>
    cases hp : dlookup i P with
    | none => simp
    | some p =>
      simp only [Finset.mem_insert, Option.some.injEq]
      constructor
      · rintro (h | h)
        · exact Or.inr ⟨h.symm, trivial⟩
        · exact Or.inl h
      · rintro (h | ⟨h, -⟩)
        · exact Or.inr h
        · exact Or.inl h.symm
  | some c =>
    cases hp : dlookup i P with
    | none => simp
    | some p =>
      by_cases hpe : primEq (σ.insts p) (σ.insts c) = true <;> simp [hpe]

theorem diffFold_mem_create (σ : Heap) (P C : List (Option Int × Nat))
    (ids : List (Option Int)) (acc : Finset Nat × Finset Nat × Finset Nat) (r : Nat) :
    r ∈ (ids.foldl (diffStep σ P C) acc).1 ↔
      r ∈ acc.1 ∨ ∃ i ∈ ids, dlookup i C = some r ∧ dlookup i P = none := by
  induction ids generalizing acc with
  | nil => simp
  | cons i t ih =>
    rw [List.foldl_cons, ih, diffStep_mem_create]
    simp only [List.mem_cons]
    constructor
    · rintro ((h | h) | ⟨j, hj, hcond⟩)
      · exact Or.inl h
      · exact Or.inr ⟨i, Or.inl rfl, h⟩
      · exact Or.inr ⟨j, Or.inr hj, hcond⟩
    · rintro (h | ⟨j, (rfl | hj), hcond⟩)
      · exact Or.inl (Or.inl h)
      · exact Or.inl (Or.inr hcond)
      · exact Or.inr ⟨j, hj, hcond⟩

theorem diffFold_mem_modify (σ : Heap) (P C : List (Option Int × Nat))
    (ids : List (Option Int)) (acc : Finset Nat × Finset Nat × Finset Nat) (r : Nat) :
    r ∈ (ids.foldl (diffStep σ P C) acc).2.1 ↔
      r ∈ acc.2.1 ∨ ∃ i ∈ ids, ∃ p, dlookup i P = some p ∧ dlookup i C = some r ∧
        primEq (σ.insts p) (σ.insts r) = false := by
  induction ids generalizing acc with
  | nil => simp
  | cons i t ih =>
    rw [List.foldl_cons, ih, diffStep_mem_modify]
    simp only [List.mem_cons]
    constructor
    · rintro ((h | h) | ⟨j, hj, hcond⟩)
      · exact Or.inl h
      · exact Or.inr ⟨i, Or.inl rfl, h⟩
      · exact Or.inr ⟨j, Or.inr hj, hcond⟩
    · rintro (h | ⟨j, (rfl | hj), hcond⟩)
      · exact Or.inl (Or.inl h)
      · exact Or.inl (Or.inr hcond)
      · exact Or.inr ⟨j, hj, hcond⟩

theorem diffFold_mem_delete (σ : Heap) (P C : List (Option Int × Nat))
    (ids : List (Option Int)) (acc : Finset Nat × Finset Nat × Finset Nat) (r : Nat) :
    r ∈ (ids.foldl (diffStep σ P C) acc).2.2 ↔
      r ∈ acc.2.2 ∨ ∃ i ∈ ids, dlookup i P = some r ∧ dlookup i C = none := by
  induction ids generalizing acc with
  | nil => simp
  | cons i t ih =>
    rw [List.foldl_cons, ih, diffStep_mem_delete]
    simp only [List.mem_cons]
    constructor
    · rintro ((h | h) | ⟨j, hj, hcond⟩)
      · exact Or.inl h
      · exact Or.inr ⟨i, Or.inl rfl, h⟩
      · exact Or.inr ⟨j, Or.inr hj, hcond⟩
    · rintro (h | ⟨j, (rfl | hj), hcond⟩)
      · exact Or.inl (Or.inl h)
      · exact Or.inl (Or.inr hcond)
      · exact Or.inr ⟨j, hj, hcond⟩

theorem mem_diffIds_left {C P : List (Option Int × Nat)} {i : Option Int}
    (h : i ∈ C.map Prod.fst) : i ∈ diffIds C P := by
  rw [diffIds, List.mem_dedup]
  exact List.mem_append_left _ h

theorem mem_diffIds_right {C P : List (Option Int × Nat)} {i : Option Int}
    (h : i ∈ P.map Prod.fst) : i ∈ diffIds C P := by
  rw [diffIds, List.mem_dedup]
  exact List.mem_append_right _ h

theorem exists_diffIds_create (C P : List (Option Int × Nat)) (r : Nat) :
    (∃ i ∈ diffIds C P, dlookup i C = some r ∧ dlookup i P = none) ↔
      ∃ i, dlookup i C = some r ∧ dlookup i P = none := by
  constructor
  · rintro ⟨i, -, h⟩
    exact ⟨i, h⟩
  · rintro ⟨i, h⟩
    exact ⟨i, mem_diffIds_left (mem_keys_of_dlookup h.1), h⟩

theorem exists_diffIds_modify (σ : Heap) (C P : List (Option Int × Nat)) (r : Nat) :
    (∃ i ∈ diffIds C P, ∃ p, dlookup i P = some p ∧ dlookup i C = some r ∧
        primEq (σ.insts p) (σ.insts r) = false) ↔
      ∃ i p, dlookup i P = some p ∧ dlookup i C = some r ∧
        primEq (σ.insts p) (σ.insts r) = false := by
  constructor
  · rintro ⟨i, -, h⟩
    exact ⟨i, h⟩
  · rintro ⟨i, p, h⟩
    exact ⟨i, mem_diffIds_right (mem_keys_of_dlookup h.1), p, h⟩

theorem exists_diffIds_delete (C P : List (Option Int × Nat)) (r : Nat) :
    (∃ i ∈ diffIds C P, dlookup i P = some r ∧ dlookup i C = none) ↔
      ∃ i, dlookup i P = some r ∧ dlookup i C = none := by
  constructor
  · rintro ⟨i, -, h⟩
    exact ⟨i, h⟩
  · rintro ⟨i, h⟩
    exact ⟨i, mem_diffIds_right (mem_keys_of_dlookup h.1), h⟩

theorem exists_kind_iff (F : Kind → Prop) :
    (∃ k, F k) ↔ F .node ∨ F .way ∨ F .relation := by
  constructor
  · rintro ⟨k, h⟩
    cases k
    · exact Or.inl h
    · exact Or.inr (Or.inl h)
    · exact Or.inr (Or.inr h)
  · rintro (h | h | h) <;> exact ⟨_, h⟩

/-- Parent-side node for the concrete diff example: id 1, version 1, tags
`{a: 1}`. -/
def exDiffNodeP1 : Inst :=
  { attribs := { id := some 1, version := some 1, lat := none, lon := none,
                 changeset := none, visible := none }
    tags := [("a", "1")]
    payload := .node
    hist := 0 }

/-- Child-side node for the concrete diff example: id 1, version 1, tags
`{a: 2}`. -/
def exDiffNodeC1 : Inst :=
  { attribs := { id := some 1, version := some 1, lat := none, lon := none,
                 changeset := none, visible := none }
    tags := [("a", "2")]
    payload := .node
    hist := 1 }

/-- Child-side node for the concrete diff example: id 2, version 1, no tags. -/
def exDiffNodeC2 : Inst :=
  { attribs := { id := some 2, version := some 1, lat := none, lon := none,
                 changeset := none, visible := none }
    tags := []
    payload := .node
    hist := 2 }

def exDiffHeap : Heap :=
  { insts := fun r => if r = 0 then exDiffNodeP1 else if r = 1 then exDiffNodeC1 else exDiffNodeC2
    hists := fun _ => []
    freshHist := 3 }

def exParentDoc : OSMDoc := { nodes := [(some 1, 0)], ways := [], relations := [] }

def exChildDoc : OSMDoc := { nodes := [(some 1, 1), (some 2, 2)], ways := [], relations := [] }

/-- C4: `OSC.from_diff` partitions the union of ids, per kind: an id only in
the parent contributes the parent's instance to `delete`; an id only in the
child contributes the child's instance to `create`; an id in both with
structurally unequal instances contributes the child's instance to `modify`;
an id in both with equal instances appears in none of the three sets (the
membership characterisations are exhaustive).  The function reads but never
writes its inputs: its result consists only of the three fresh sets.  On the
concrete documents parent = `{1: Node(v1, tags={a:1})}`,
child = `{1: Node(v1, tags={a:2}), 2: Node(v1, tags={})}` the result is
create = {reference 2} (the new node with id 2), modify = {reference 1} (the
changed node with id 1), delete = ∅. -/
theorem osc_from_diff_partition :
    (∀ (σ : Heap) (parent child : OSMDoc) (r : Nat),
      (r ∈ (OSC.fromDiffSets σ parent child).1 ↔
        ∃ k, ∃ i, dlookup i (child.byKind k) = some r ∧
          dlookup i (parent.byKind k) = none) ∧
      (r ∈ (OSC.fromDiffSets σ parent child).2.1 ↔
        ∃ k, ∃ i p, dlookup i (parent.byKind k) = some p ∧
          dlookup i (child.byKind k) = some r ∧
          primEq (σ.insts p) (σ.insts r) = false) ∧
      (r ∈ (OSC.fromDiffSets σ parent child).2.2 ↔
        ∃ k, ∃ i, dlookup i (parent.byKind k) = some r ∧
          dlookup i (child.byKind k) = none)) ∧
    OSC.fromDiffSets exDiffHeap exParentDoc exChildDoc = ({2}, {1}, ∅) := by
  constructor
  · intro σ parent child r
    refine ⟨?_, ?_, ?_⟩
    · rw [OSC.fromDiffSets, diffFold_mem_create, diffFold_mem_create,
        diffFold_mem_create,
        exists_kind_iff (fun k => ∃ i, dlookup i (child.byKind k) = some r ∧
          dlookup i (parent.byKind k) = none)]
      simp only [Finset.not_mem_empty, false_or, OSMDoc.byKind]
      rw [exists_diffIds_create, exists_diffIds_create, exists_diffIds_create,
        or_assoc]
    · rw [OSC.fromDiffSets, diffFold_mem_modify, diffFold_mem_modify,
        diffFold_mem_modify,
        exists_kind_iff (fun k => ∃ i p, dlookup i (parent.byKind k) = some p ∧
          dlookup i (child.byKind k) = some r ∧
          primEq (σ.insts p) (σ.insts r) = false)]
      simp only [Finset.not_mem_empty, false_or, OSMDoc.byKind]
      rw [exists_diffIds_modify, exists_diffIds_modify, exists_diffIds_modify,
        or_assoc]
    · rw [OSC.fromDiffSets, diffFold_mem_delete, diffFold_mem_delete,
        diffFold_mem_delete,
        exists_kind_iff (fun k => ∃ i, dlookup i (parent.byKind k) = some r ∧
          dlookup i (child.byKind k) = none)]
      simp only [Finset.not_mem_empty, false_or, OSMDoc.byKind]
      rw [exists_diffIds_delete, exists_diffIds_delete, exists_diffIds_delete,
        or_assoc]
  · decide

/-- C1 counterexample: `OSM.add` does not merge history.  On the heap holding
a version-2 node (reference 0) and a version-1 node (reference 1) with the same
id 1, adding the version-1 node to a document that already stores the version-2
node leaves reference 1 stored — an instance with version 1 whose history lacks
version 2 — whereas `merge_history` would have produced reference 0, the
version-2 representative. -/
theorem osm_add_counterexample :
    dlookup (some 1)
      (OSM.add exHeap (OSMDoc.mk [(some 1, 0)] [] []) 1).nodes = some 1 ∧
    (exHeap.insts 1).attribs.version = some 1 ∧
    dlookup 2 (exHeap.hists ((exHeap.insts 1).hist)) = none ∧
    (mergeHistory exHeap 0 1).1 = .ok 0 ∧
    (exHeap.insts 0).attribs.version = some 2 ∧
    (1 : Nat) ≠ 0 :=
  ⟨rfl, rfl, rfl, rfl, rfl, by decide⟩

/-- C1 (amended): `OSM.add` stores the item under its `(kind, id)` key
unconditionally, overwriting any existing entry, and leaves the other two
containers untouched; it never calls `merge_history` (merging on repeated ids
happens only in `OSM.from_xml`). -/
theorem osm_add_overwrites (σ : Heap) (doc : OSMDoc) (r : Nat) :
    (kindOf (σ.insts r) = .node →
      (∀ k, dlookup k (OSM.add σ doc r).nodes =
        if (σ.insts r).attribs.id = k then some r else dlookup k doc.nodes) ∧
      (OSM.add σ doc r).ways = doc.ways ∧
      (OSM.add σ doc r).relations = doc.relations) ∧
    (kindOf (σ.insts r) = .way →
      (∀ k, dlookup k (OSM.add σ doc r).ways =
        if (σ.insts r).attribs.id = k then some r else dlookup k doc.ways) ∧
      (OSM.add σ doc r).nodes = doc.nodes ∧
      (OSM.add σ doc r).relations = doc.relations) ∧
    (kindOf (σ.insts r) = .relation →
      (∀ k, dlookup k (OSM.add σ doc r).relations =
        if (σ.insts r).attribs.id = k then some r else dlookup k doc.relations) ∧
      (OSM.add σ doc r).nodes = doc.nodes ∧
      (OSM.add σ doc r).ways = doc.ways) := by
  refine ⟨fun h => ?_, fun h => ?_, fun h => ?_⟩ <;>
    simp [OSM.add, h, dlookup_dinsert]

/-- Witness for the amended C1 statement at a concrete input. -/
theorem osm_add_overwrites_witness :
    kindOf (exHeap.insts 0) = .node ∧
    ((∀ k, dlookup k (OSM.add exHeap (OSMDoc.mk [] [] []) 0).nodes =
      if (exHeap.insts 0).attribs.id = k then some 0
      else dlookup k (OSMDoc.mk [] [] []).nodes) ∧
    (OSM.add exHeap (OSMDoc.mk [] [] []) 0).ways = (OSMDoc.mk [] [] []).ways ∧
    (OSM.add exHeap (OSMDoc.mk [] [] []) 0).relations =
      (OSMDoc.mk [] [] []).relations) :=
  ⟨rfl, (osm_add_overwrites exHeap (OSMDoc.mk [] [] []) 0).1 rfl⟩

/-- C8: `x in doc` is true iff the instance currently stored under x's
`(kind, id)` identity is structurally equal (Python `==`, i.e. `primEq`:
id, version, tags and the kind-specific payload) to x; and the mere presence
of the identity with a structurally different stored instance yields false. -/
theorem osm_contains_iff (σ : Heap) (doc : OSMDoc) (r : Nat) :
    (OSM.contains σ doc r = true ↔
      ∃ s, dlookup (σ.insts r).attribs.id (doc.byKind (kindOf (σ.insts r))) = some s ∧
        primEq (σ.insts s) (σ.insts r) = true) ∧
    (∀ s, dlookup (σ.insts r).attribs.id (doc.byKind (kindOf (σ.insts r))) = some s →
      primEq (σ.insts s) (σ.insts r) = false →
      OSM.contains σ doc r = false) := by
  constructor
  · unfold OSM.contains
    cases h : dlookup (σ.insts r).attribs.id (doc.byKind (kindOf (σ.insts r))) with
    | none => simp
    | some s => simp
  · intro s hs hp
    unfold OSM.contains
    rw [hs]
    exact hp

/-- Witness for the containment characterisation at a concrete input: the
stored instance equals the queried one, so containment holds. -/
theorem osm_contains_iff_witness :
    (OSM.contains exHeap (OSMDoc.mk [(some 1, 0)] [] []) 0 = true ↔
      ∃ s, dlookup (exHeap.insts 0).attribs.id
          ((OSMDoc.mk [(some 1, 0)] [] []).byKind (kindOf (exHeap.insts 0))) = some s ∧
        primEq (exHeap.insts s) (exHeap.insts 0) = true) ∧
    (∀ s, dlookup (exHeap.insts 0).attribs.id
        ((OSMDoc.mk [(some 1, 0)] [] []).byKind (kindOf (exHeap.insts 0))) = some s →
      primEq (exHeap.insts s) (exHeap.insts 0) = false →
      OSM.contains exHeap (OSMDoc.mk [(some 1, 0)] [] []) 0 = false) :=
  osm_contains_iff exHeap (OSMDoc.mk [(some 1, 0)] [] []) 0

/-! ## The auto-changeset session (src/osmapis.py 1030-1090, 1301-1315) -/

/-- The `changeset` argument a write operation receives: a `Changeset` wrapper
(whose `id` attribute may be unset), a plain integer id, or Python `None`. -/
inductive CsArg
  | wrapper (cid : Option Int)
  | intId (cid : Int)
  | noArg

/-- The errors `API._changeset_id` raises: `ValueError` for a wrapper without
an id (the spec's `MissingChangesetId`), `TypeError` when auto-changeset is
disabled and nothing usable was passed (`AutoChangesetDisabled`). -/
inductive CsErr
  | missingChangesetId
  | autoChangesetDisabled
  deriving DecidableEq, Repr

/-- Session state of the auto-changeset machinery: `changeset` is
`API._changeset` — `None`, or the open changeset's id together with the
`counter` attribute stuck onto the wrapper; `enabled` and `size` come from the
`auto_changeset` configuration dict.  `nextId` models the external collaborator
(the server behind `create_changeset`), which assigns fresh, strictly
increasing changeset ids; `closedLog` records every id handed to
`close_changeset`. -/
structure Session where
  changeset : Option (Int × Nat)
  enabled : Bool
  size : Nat
  nextId : Int
  closedLog : List Int

/-- Model of `API.close_changeset` (src/osmapis.py 1301-1315): resolve the argument's id
(with auto-changeset temporarily disabled, so the call itself cannot open a
session) and issue the HTTP close; no session field changes. -/
def closeChangeset (s : Session) (cid : Int) : Session :=
  { s with closedLog := s.closedLog ++ [cid] }

/-- Model of `API._auto_changeset_clear` (src/osmapis.py 1083-1090): nothing to do when
no session is open; close and drop the session when forced or when its counter
has reached the configured size; report whether it closed. -/
def autoChangesetClear (s : Session) (force : Bool) : Session × Bool :=
  match s.changeset with
  | none => (s, false)
  | some (cid, ctr) =>
    if force = true ∨ ctr ≥ s.size then
      ({ closeChangeset s cid with changeset := none }, true)
    else (s, false)

/-- Model of `API._changeset_id` (src/osmapis.py 1055-1081; identical in src/osmt.py
1137-1163): an explicit wrapper or integer id is used directly (`ValueError`
if the wrapper has no id); otherwise, when auto-changeset is enabled, first let
`_auto_changeset_clear` rotate out an exhausted session, open a new changeset
with counter 0 if none is open, increment the counter and return the session's
id; when disabled, raise `TypeError`.  (Opening with counter 0 and then
incrementing is folded into storing counter 1/`ctr + 1`.) -/
def changesetId (s : Session) (arg : CsArg) : Except CsErr Int × Session :=
  match arg with
  | .wrapper (some cid) => (.ok cid, s)
  | .wrapper none => (.error .missingChangesetId, s)
  | .intId cid => (.ok cid, s)
  | .noArg =>
    if s.enabled then
      match autoChangesetClear s false with
      | (s1, _) =>
        match s1.changeset with
        | some (cid, ctr) => (.ok cid, { s1 with changeset := some (cid, ctr + 1) })
        | none =>
          (.ok s1.nextId,
           { s1 with changeset := some (s1.nextId, 1), nextId := s1.nextId + 1 })
    else (.error .autoChangesetDisabled, s)

/-- The changeset bookkeeping of `API.upload_diff` (src/osmapis.py 1442-1449):
resolve the changeset id, post the OSC (external call), then
`if not self._auto_changeset_clear(force=True):
self.close_changeset(int(changeset_id))`. -/
def uploadDiffSession (s : Session) (arg : CsArg) : Except CsErr Int × Session :=
  match changesetId s arg with
  | (.error e, s1) => (.error e, s1)
  | (.ok cid, s1) =>
    if (autoChangesetClear s1 true).2 = true then
      (.ok cid, (autoChangesetClear s1 true).1)
    else (.ok cid, closeChangeset (autoChangesetClear s1 true).1 cid)

/-- C3: with auto-changeset enabled and size 2, three consecutive
`_changeset_id(None)` resolutions from a fresh session return ids X, X, Y with
Y ≠ X — the resolution that brings the counter to the limit still returns the
changeset that hit it, and only the next resolution opens a fresh one. -/
theorem changeset_batching_boundary (s : Session)
    (hfresh : s.changeset = none) (hen : s.enabled = true) (hsz : s.size = 2) :
    ∃ x y s1 s2 s3,
      changesetId s .noArg = (.ok x, s1) ∧
      changesetId s1 .noArg = (.ok x, s2) ∧
      changesetId s2 .noArg = (.ok y, s3) ∧
      y ≠ x := by
  obtain ⟨cs, en, sz, nid, log⟩ := s
  simp only at hfresh hen hsz
  subst hfresh hen hsz
  refine ⟨nid, nid + 1, _, _, _, rfl, rfl, rfl, by omega⟩

/-- Witness for the changeset batching boundary at a concrete fresh session. -/
theorem changeset_batching_boundary_witness :
    (Session.mk none true 2 100 []).changeset = none ∧
    (Session.mk none true 2 100 []).enabled = true ∧
    (Session.mk none true 2 100 []).size = 2 ∧
    (∃ x y s1 s2 s3,
      changesetId (Session.mk none true 2 100 []) .noArg = (.ok x, s1) ∧
      changesetId s1 .noArg = (.ok x, s2) ∧
      changesetId s2 .noArg = (.ok y, s3) ∧
      y ≠ x) :=
  ⟨rfl, rfl, rfl, changeset_batching_boundary (Session.mk none true 2 100 []) rfl rfl rfl⟩

/-- A session with auto-changeset 5 open (one op counted) under the default
size 200. -/
def exOpenSession : Session :=
  { changeset := some (5, 1), enabled := true, size := 200, nextId := 100,
    closedLog := [] }

/-- C10 counterexample: `upload_diff` with the explicitly supplied changeset id
7 while auto-changeset 5 is open.  The forced clear closes the session's
changeset 5 and returns `True`, so `close_changeset(7)` is never called: the
changeset actually used for the upload stays open. -/
theorem upload_diff_close_counterexample :
    uploadDiffSession exOpenSession (.intId 7) =
      (.ok 7, { exOpenSession with changeset := none, closedLog := [5] }) ∧
    (7 : Int) ∉ [(5 : Int)] :=
  ⟨rfl, by decide⟩

/-- C10 (amended): after every successful `upload_diff` the auto-changeset
session is cleared; if a session changeset was still open once the upload's id
was resolved, that session changeset — and only it — is closed; only when no
session was open is the changeset actually used for the upload closed. -/
theorem upload_diff_close_behavior (s : Session) (arg : CsArg) (cid : Int)
    (s2 : Session) (h : uploadDiffSession s arg = (.ok cid, s2)) :
    s2.changeset = none ∧
    (∀ c ctr, (changesetId s arg).2.changeset = some (c, ctr) →
      s2.closedLog = (changesetId s arg).2.closedLog ++ [c]) ∧
    ((changesetId s arg).2.changeset = none →
      s2.closedLog = (changesetId s arg).2.closedLog ++ [cid]) := by
  rcases hc : changesetId s arg with ⟨r, s1⟩
  simp only [hc]
  cases r with
  | error e =>
    have hbad : uploadDiffSession s arg = (.error e, s1) := by
      unfold uploadDiffSession
      rw [hc]
    rw [hbad] at h
    exact absurd h (by simp)
  | ok cid2 =>
    have hured : uploadDiffSession s arg =
        if (autoChangesetClear s1 true).2 = true then
          (.ok cid2, (autoChangesetClear s1 true).1)
        else (.ok cid2, closeChangeset (autoChangesetClear s1 true).1 cid2) := by
      unfold uploadDiffSession
      rw [hc]
    rw [hured] at h
    cases hcs : s1.changeset with
    | none =>
      have hclear : autoChangesetClear s1 true = (s1, false) := by
        unfold autoChangesetClear
        rw [hcs]
      rw [hclear] at h
      simp at h
      obtain ⟨rfl, hs2⟩ := h
      refine ⟨?_, ?_, ?_⟩
      · rw [← hs2]
        simp [closeChangeset, hcs]
      · intro c ctr habs
        exact Option.noConfusion habs
      · intro _
        rw [← hs2]
        simp [closeChangeset]
    | some p =>
      obtain ⟨c, ctr⟩ := p
      have hclear : autoChangesetClear s1 true =
          ({ closeChangeset s1 c with changeset := none }, true) := by
        unfold autoChangesetClear
        rw [hcs]
        exact if_pos (Or.inl rfl)
      rw [hclear] at h
      simp at h
      obtain ⟨rfl, hs2⟩ := h
      refine ⟨?_, ?_, ?_⟩
      · rw [← hs2]
      · intro c2 ctr2 heq
        obtain ⟨rfl, rfl⟩ : c = c2 ∧ ctr = ctr2 := by simpa using heq
        rw [← hs2]
        simp [closeChangeset]
      · intro habs
        exact Option.noConfusion habs

/-- Witness for the amended upload_diff closing behaviour at a concrete
input. -/
theorem upload_diff_close_behavior_witness :
    uploadDiffSession exOpenSession (.intId 7) =
      (.ok 7, { exOpenSession with changeset := none, closedLog := [5] }) ∧
    (({ exOpenSession with changeset := none, closedLog := [5] } : Session).changeset = none ∧
     (∀ c ctr, (changesetId exOpenSession (.intId 7)).2.changeset = some (c, ctr) →
       ({ exOpenSession with changeset := none, closedLog := [5] } : Session).closedLog =
         (changesetId exOpenSession (.intId 7)).2.closedLog ++ [c]) ∧
     ((changesetId exOpenSession (.intId 7)).2.changeset = none →
       ({ exOpenSession with changeset := none, closedLog := [5] } : Session).closedLog =
         (changesetId exOpenSession (.intId 7)).2.closedLog ++ [7])) :=
  ⟨rfl, upload_diff_close_behavior exOpenSession (.intId 7) 7 _ rfl⟩

/-! ## upload_diff response handling and the single-element write-back
(src/osmapis.py 1450-1460, 1462-1485) -/

/-- One per-primitive acknowledgment element of the diff-upload response:
`old_id` plus the optional `new_id` / `new_version` attributes, as read by
`upload_diff`. -/
structure AckRec where
  old_id : Int
  new_id : Option Int
  new_version : Option Int
  deriving DecidableEq, Repr

/-- The response-parsing tail of `API.upload_diff` (src/osmapis.py 1450-1460):
build `{"node": {}, "way": {}, "relation": {}}` and file each acknowledgment
element of the response under its kind and `old_id`. -/
def uploadDiffResult (resp : List (Kind × AckRec)) (k : Kind) : List (Int × AckRec) :=
  (resp.filter (fun p => p.1 == k)).foldl (fun acc p => dinsert p.2.old_id p.2 acc) []

/-- Model of `API.upload_diff` after the HTTP call: parse the acknowledgments and return
them.  The method body contains no assignment to any wrapper, so the heap of
in-memory primitives comes back exactly as it went in. -/
def uploadDiff (σ : Heap) (resp : List (Kind × AckRec)) :
    (Kind → List (Int × AckRec)) × Heap :=
  (uploadDiffResult resp, σ)

/-- The post-response mutation of `API.create_element` (src/osmapis.py
1482-1484; `update_element` 1507-1509 is identical): set the `version`
attribute from the response body, set `changeset` to the used changeset id,
and rebind `history` to the fresh single-entry dict `{version: self}`.  The
element's `id` attribute is never written. -/
def createElementApply (σ : Heap) (r : Nat) (respVersion : Int) (csid : Int) : Heap :=
  { insts := fun x =>
      if x = r then
        { σ.insts r with
            attribs := { (σ.insts r).attribs with
                          version := some respVersion, changeset := some csid }
            hist := σ.freshHist }
      else σ.insts x
    hists := fun n => if n = σ.freshHist then [(respVersion, r)] else σ.hists n
    freshHist := σ.freshHist + 1 }

/-- A freshly constructed node with placeholder id −5 and no version yet. -/
def exPendingNode : Inst :=
  { attribs := { id := some (-5), version := none, lat := none, lon := none,
                 changeset := none, visible := none }
    tags := []
    payload := .node
    hist := 0 }

def exPendingHeap : Heap :=
  { insts := fun _ => exPendingNode
    hists := fun _ => []
    freshHist := 1 }

/-- C2 counterexample: a create was submitted with placeholder id −5 and the
server acknowledged `{old_id: -5, new_id: 42, new_version: 1}`.  After
`upload_diff` returns, the acknowledgment is in the returned mapping, but the
in-memory primitive still has id −5 (not 42) and still has no version — the
response is never folded back into the wrappers. -/
theorem upload_reconciliation_counterexample :
    dlookup (-5) ((uploadDiff exPendingHeap
        [(Kind.node, AckRec.mk (-5) (some 42) (some 1))]).1 Kind.node) =
      some (AckRec.mk (-5) (some 42) (some 1)) ∧
    ((uploadDiff exPendingHeap
        [(Kind.node, AckRec.mk (-5) (some 42) (some 1))]).2.insts 0).attribs.id =
      some (-5) ∧
    some (-5 : Int) ≠ some (42 : Int) ∧
    ((uploadDiff exPendingHeap
        [(Kind.node, AckRec.mk (-5) (some 42) (some 1))]).2.insts 0).attribs.version ≠
      some 1 :=
  ⟨rfl, rfl, by decide, by decide⟩

/-- C2 (amended): `upload_diff` parses the acknowledgments into
`{kind: {old_id: record}}` and returns them to the caller without modifying
any in-memory primitive; only the single-element write helpers
(`create_element` / `update_element` / `delete_element`) mutate the element in
place — setting `version` and `changeset` from the response and resetting
`history` to the fresh `{version: self}` — and even they never overwrite
`id`. -/
theorem upload_diff_returns_acks_only (σ : Heap) (resp : List (Kind × AckRec))
    (r : Nat) (v csid : Int) :
    (uploadDiff σ resp).2 = σ ∧
    ((createElementApply σ r v csid).insts r).attribs.id = (σ.insts r).attribs.id ∧
    ((createElementApply σ r v csid).insts r).attribs.version = some v ∧
    ((createElementApply σ r v csid).insts r).attribs.changeset = some csid ∧
    (createElementApply σ r v csid).hists
      (((createElementApply σ r v csid).insts r).hist) = [(v, r)] := by
  refine ⟨rfl, ?_, ?_, ?_, ?_⟩ <;> simp [createElementApply]

/-! ## Automatic negative id assignment (src/osmapis.py 1856, 1889-1894,
1932, 1964-1970, 2026, 2058-2064) -/

/-- The id-assignment step shared verbatim by `Node.__init__`, `Way.__init__`
and `Relation.__init__`: when the wrapper has no id after the base
constructor ran, decrement the class's process-wide `_counter` (one counter
per kind, a class attribute starting at 0) and store it as the id.  Returns
the wrapper's id and the counter's new value. -/
def primInit (attribId : Option Int) (counter : Int) : Int × Int :=
  match attribId with
  | some i => (i, counter)
  | none => (counter - 1, counter - 1)

/-- The ids handed out by `n` successive no-id constructions of one kind,
starting from counter value `counter`. -/
def autoIds (counter : Int) : Nat → List Int
  | 0 => []
  | n + 1 => (primInit none counter).1 :: autoIds (primInit none counter).2 n

theorem autoIds_eq_map (counter : Int) (n : Nat) :
    autoIds counter n = (List.range n).map (fun i : Nat => counter - 1 - (i : Int)) := by
  induction n generalizing counter with
  | zero => rfl
  | succ n ih =>
    rw [autoIds, ih, List.range_succ_eq_map, List.map_cons, List.map_map]
    refine List.cons_eq_cons.mpr ⟨by simp [primInit], ?_⟩
    apply List.map_congr_left
    intro i hi
    simp [primInit, Function.comp]
    ring

/-- C7: every primitive constructed without an explicit id gets a strictly
negative id, and successive such constructions (per kind) yield strictly
decreasing ids; a construction with an explicit id leaves the counter alone.
The hypothesis `counter ≤ 0` is the invariant of the class counters, which
start at 0 and are only ever decremented. -/
theorem placeholder_ids_negative_decreasing (counter : Int) (n : Nat)
    (hc : counter ≤ 0) :
    (∀ x ∈ autoIds counter n, x < 0) ∧
    List.Pairwise (fun a b => a > b) (autoIds counter n) ∧
    (∀ i, primInit (some i) counter = (i, counter)) ∧
    (primInit none counter).1 = counter - 1 ∧
    (primInit none counter).2 = counter - 1 := by
  rw [autoIds_eq_map]
  refine ⟨?_, ?_, fun i => rfl, rfl, rfl⟩
  · intro x hx
    simp only [List.mem_map, List.mem_range] at hx
    obtain ⟨i, hi, rfl⟩ := hx
    omega
  · rw [List.pairwise_map]
    apply List.Pairwise.imp ?_ (List.pairwise_lt_range n)
    intro i j hij
    simp only [gt_iff_lt]
    omega

/-- Witness for the placeholder-id invariant: three successive constructions
from the initial counter 0 give −1, −2, −3. -/
theorem placeholder_ids_negative_decreasing_witness :
    (0 : Int) ≤ 0 ∧
    ((∀ x ∈ autoIds 0 3, x < 0) ∧
     List.Pairwise (fun a b => a > b) (autoIds 0 3) ∧
     (∀ i, primInit (some i) 0 = (i, 0)) ∧
     (primInit none 0).1 = 0 - 1 ∧
     (primInit none 0).2 = 0 - 1) :=
  ⟨le_refl 0, placeholder_ids_negative_decreasing 0 3 (le_refl 0)⟩

/-! ## The attribute codec (src/osmapis.py 1671-1713) -/

/-- A typed attribute value: integer, float, boolean, or plain string.  A
Python float is embedded by its repr string (`str(float)`); the codec only
moves floats between dict and XML text, never computes with them. -/
inductive AVal
  | aInt (n : Int)
  | aFloat (s : String)
  | aBool (b : Bool)
  | aStr (s : String)
  deriving DecidableEq, Repr

def intKeys : List String := ["uid", "changeset", "version", "id", "ref"]

def floatKeys : List String :=
  ["lat", "lon", "min_lon", "max_lon", "min_lat", "max_lat"]

def boolKeys : List String := ["open", "visible"]

/-- Model of `XMLElement.parse_attribs` (src/osmapis.py 1671-1688), per key: the int
keys via `int(value)` (`none` models the `ValueError` on a non-numeric
string), the float keys via `float(value)`, the bool keys via
`value == "true"`, everything else kept as an opaque string. -/
def parseAttribVal (k v : String) : Option AVal :=
  if k ∈ intKeys then (v.toInt?).map .aInt
  else if k ∈ floatKeys then some (.aFloat v)
  else if k ∈ boolKeys then some (.aBool (v == "true"))
  else some (.aStr v)

def parseAttribs (l : List (String × String)) : Option (List (String × AVal)) :=
  l.mapM (fun p => (parseAttribVal p.1 p.2).map (fun v => (p.1, v)))

/-- Model of `XMLElement.unparse_attribs` (src/osmapis.py 1690-1713), per value:
`isinstance(value, (int, float))` → `str(value)`; `elif isinstance(value,
bool)` → `str(value).lower()`; else the string itself.  Python's `bool` is a
subclass of `int`, so a boolean is caught by the FIRST branch and stringified
as `"True"`/`"False"`; the explicit lowercase branch is dead code.  (The
sibling `unparse_attribs` in src/osmt.py 1758-1778 lowercases correctly.) -/
def unparseAttribVal : AVal → String
  | .aInt n => toString n
  | .aFloat s => s
  | .aBool b => if b then "True" else "False"
  | .aStr s => s

def unparseAttribs (l : List (String × AVal)) (strip : List String) :
    List (String × String) :=
  (l.filter (fun p => !(strip.contains p.1))).map
    (fun p => (p.1, unparseAttribVal p.2))

/-- C9: the boolean round-trip fails in src/osmapis.py.  Serialising the typed
attribute map `{"open": True}` produces the string `"True"` (the int/float
branch catches booleans because Python's `bool` subclasses `int`), and
re-parsing compares the string only against `"true"`, yielding `False`.  Ints
do round-trip.  This contradicts the code's own dead lowercase branch and the
claimed round-trip — the code, not the claim, is wrong. -/
theorem parse_unparse_bool_bug :
    unparseAttribs [("open", AVal.aBool true)] [] = [("open", "True")] ∧
    parseAttribs (unparseAttribs [("open", AVal.aBool true)] []) =
      some [("open", AVal.aBool false)] ∧
    parseAttribs (unparseAttribs
        [("user", AVal.aStr "bob"), ("visible", AVal.aBool false)] []) =
      some [("user", AVal.aStr "bob"), ("visible", AVal.aBool false)] :=
  ⟨rfl, rfl, rfl⟩
